import Mathlib

/-!
Verification of the `lazystream` playlist builder (`src/playlist.rs`)
against its natural-language specification.

The Rust source is shallowly embedded below: pure string manipulation is
translated to Lean functions on `String`/`List Char`, the fallible pipeline
(`process`, `create_playlist`, `get_m3u8`) is translated to functions
returning `Except String _`, and the external collaborators (the schedule
service, the per-game content service and the HTTP transport of the probe
endpoint) are abstracted into a `World` record of oracles that the pipeline
consumes exactly where the Rust code performs the corresponding network call.
-/

namespace Lazystream

/-! ## Data model (from `playlist.rs` structs and the external service shapes) -/

/-- Local wall-clock time of a game's start, as produced by
`game.date.with_timezone(&Local).time()`; the timezone conversion itself is
performed by the external `chrono` library, so the embedding carries the
already-converted local hour and minute. -/
structure LocalTime where
  hour : Nat
  min : Nat
  deriving Repr, DecidableEq

/-- Rust `struct Stream` of `playlist.rs`: a feed type label and a URL. -/
structure Stream where
  feed_type : String
  url : String
  deriving Repr, DecidableEq

/-- Rust `struct GameData` of `playlist.rs`: home, away, date and streams. -/
structure GameData where
  home : String
  away : String
  date : LocalTime
  streams : List Stream
  deriving Repr, DecidableEq

/-- One item of `epg.items`: carries `media_feed_type` and
`media_playback_id` (external `stats_api` shape). -/
structure FeedItem where
  media_feed_type : String
  media_playback_id : String
  deriving Repr, DecidableEq

/-- One `epg` entry of the game content: a `title` and optional `items`
(external `stats_api` shape). -/
structure Epg where
  title : String
  items : Option (List FeedItem)
  deriving Repr, DecidableEq

/-- Shape of `get_game_content(..).media.epg` (external `stats_api`). -/
structure GameContent where
  epg : List Epg
  deriving Repr, DecidableEq

/-- A calendar date, as held by the schedule response. -/
structure Date where
  year : Nat
  month : Nat
  day : Nat
  deriving Repr, DecidableEq

/-- One game of the schedule response: `game_pk`, team display names and the
start timestamp (carried as the local wall-clock start time, see
`LocalTime`). -/
structure ScheduleGame where
  game_pk : Nat
  home : String
  away : String
  date : LocalTime
  deriving Repr, DecidableEq

/-- Response of `get_schedule_for(today)`: the schedule `date` and its `games`. -/
structure Schedule where
  date : Date
  games : List ScheduleGame
  deriving Repr, DecidableEq

/-- The external collaborators of one run: the schedule fetch, the per-game
content fetch (keyed by `game_pk`) and the probe transport (mapping a probe
URL to `some body` on HTTP success and `none` on a transport failure). -/
structure World where
  schedule : Except String Schedule
  content : Nat → Except String GameContent
  probe : String → Option String

/-! ## Stream resolver (`get_m3u8`) -/

/-- Rust's `str::starts_with` for a string pattern: the pattern is a prefix
of the subject. -/
def strStartsWith (s pat : String) : Bool :=
  pat.data.isPrefixOf s.data

/-- The response-body validation of `get_m3u8`
(`if !&body_text[..].starts_with("https") { bail!("Game hasn't started") }`;
on success the untouched body is returned). -/
def getM3u8Validate (body : String) : Except String String :=
  if strStartsWith body "https" then Except.ok body
  else Except.error "Game hasn't started"

/-- The full `get_m3u8` over the abstracted transport: a transport failure is an
error, an HTTP response body goes through `getM3u8Validate`. -/
def getM3u8 (probe : String → Option String) (url : String) : Except String String :=
  match probe url with
  | none => Except.error "transport failure"
  | some body => getM3u8Validate body

/-! ## Probe URL construction (`process`, lines 56-59) -/

/-- Constant `HOST` from the crate root: the probe host base URL (a process-wide
constant; its value is irrelevant to every claim). -/
def HOST : String := "http://nhl.freegamez.ga"

/-- The probe URL built by `process`:
`format!("\x7b\x7d/getM3U8.php?league=nhl&date=\x7b\x7d&id=\x7b\x7d&cdn=akc", HOST, &date, &stream.media_playback_id)`. -/
def probeUrl (host dateStr id : String) : String :=
  host ++ "/getM3U8.php?league=nhl&date=" ++ dateStr ++ "&id=" ++ id ++ "&cdn=akc"

/-- Zero-pad a numeral to width 2 (`chrono`'s `%m` / `%d` / `%M`). -/
def pad2 (n : Nat) : String :=
  if n < 10 then "0" ++ toString n else toString n

/-- Zero-pad a numeral to width 4 (`chrono`'s `%Y` for common years). -/
def pad4 (n : Nat) : String :=
  if n < 10 then "000" ++ toString n
  else if n < 100 then "00" ++ toString n
  else if n < 1000 then "0" ++ toString n
  else toString n

/-- Formatting of `todays_schedule.date.format("%Y-%m-%d")`. -/
def formatDate (d : Date) : String :=
  pad4 d.year ++ "-" ++ pad2 d.month ++ "-" ++ pad2 d.day

/-! ## Per-game fan-out (`process`, lines 51-76)

The Rust code spawns one task per feed item; each successful probe pushes its
`(media_feed_type, m3u8)` pair into a mutex-guarded vector, and
`future::join_all` waits for all of them. The vector's final contents are the
successful pairs in probe-completion order, i.e. the successes filtered out of
some permutation of the item list; the embedding makes the completion order an
explicit argument (a permuted item list) where a claim needs it. -/

/-- The fan-out of `process`: one probe per feed item, keeping
`(media_feed_type, body)` exactly for the items whose `get_m3u8` succeeds. -/
def fanOut (probe : String → Option String) (dateStr : String)
    (items : List FeedItem) : List (String × String) :=
  items.filterMap fun it =>
    match getM3u8 probe (probeUrl HOST dateStr it.media_playback_id) with
    | Except.ok m3u8 => some (it.media_feed_type, m3u8)
    | Except.error _ => none

/-- The stream list accumulated for one game: the `for epg in
game_content.media.epg` loop, running the fan-out for each epg entry titled
`"NHLTV"` that has items, and appending the results in order. -/
def gameStreams (probe : String → Option String) (dateStr : String)
    (content : GameContent) : List Stream :=
  content.epg.foldl
    (fun acc epg =>
      if epg.title = "NHLTV" then
        match epg.items with
        | some items =>
            acc ++ (fanOut probe dateStr items).map fun p => ⟨p.1, p.2⟩
        | none => acc
      else acc)
    []

/-! ## Schedule pipeline (`process`) -/

/-- The extension-check failure message of `process`. -/
def extErrMsg : String := "Playlist file extension must be '.m3u'"

/-- Drop a trailing carriage return, as Rust's `str::lines` does per line. -/
def stripTrailingCr (cs : List Char) : List Char :=
  if cs.getLast? = some '\r' then cs.dropLast else cs

/-- Split a character list at every occurrence of `sep`; the result always
has one more piece than there are separators (so it is never empty). -/
def splitOnChar (sep : Char) : List Char → List (List Char)
  | [] => [[]]
  | c :: rest =>
      if c = sep then [] :: splitOnChar sep rest
      else
        match splitOnChar sep rest with
        | [] => [[c]]
        | l :: ls => (c :: l) :: ls

/-- Split a character list at every newline. -/
def splitNl (cs : List Char) : List (List Char) :=
  splitOnChar '\n' cs

/-- Drop the final split piece when it is empty: a trailing newline
terminates the last line rather than opening a new one. -/
def dropLastEmpty (parts : List (List Char)) : List (List Char) :=
  if parts.getLast? = some [] then parts.dropLast else parts

/-- Rust's `str::lines`: split on `'\n'`, drop the final piece when it is
empty, and strip one trailing `'\r'` from each line. -/
def rustLines (s : String) : List String :=
  (dropLastEmpty (splitNl s.data)).map fun cs => String.mk (stripTrailingCr cs)

/-- Rust `Path::file_name`: the last normal component of the path, after
discarding empty and `"."` components; `none` when the path is empty, a bare
root, or ends in `".."`. -/
def fileName (p : String) : Option (List Char) :=
  let comps := (splitOnChar '/' p.data).filter fun c => c ≠ [] ∧ c ≠ ['.']
  match comps.getLast? with
  | none => none
  | some c => if c = ['.', '.'] then none else some c

/-- Rust `Path::extension`: the part of the file name after its last dot,
provided the part before that dot is non-empty (so dotless names and hidden
files like `".m3u"` have no extension). -/
def pathExtension (p : String) : Option String :=
  match fileName p with
  | none => none
  | some f =>
      if f.contains '.' then
        let ext := (f.reverse.takeWhile fun c => c ≠ '.').reverse
        let before := f.take (f.length - ext.length - 1)
        if before = [] then none else some (String.mk ext)
      else none

/-! ## Playlist serialization (`create_playlist`) -/

/-- Validation of `hls_m3u8` `SingleLineString::new`: rejects any string containing a
newline or carriage return, and otherwise wraps the string untouched. -/
def singleLineString (s : String) : Except String String :=
  if s.data.any fun c => c = '\n' ∨ c = '\r' then
    Except.error "InvalidInput: not a single line string"
  else Except.ok s

/-- The `chrono` format `"%-I:%M %p"` for local times used in titles: 12-hour clock
hour without padding, zero-padded minutes, and `AM`/`PM`. -/
def formatTime12 (t : LocalTime) : String :=
  let h12 := if t.hour % 12 = 0 then 12 else t.hour % 12
  let ampm := if t.hour % 24 < 12 then "AM" else "PM"
  toString h12 ++ ":" ++ pad2 t.min ++ " " ++ ampm

/-- The title synthesized by `create_playlist`:
`format!("\x7b\x7d @ \x7b\x7d, \x7b\x7d - \x7b\x7d", game.away, game.home, <local start time>, stream.feed_type)`. -/
def mkTitle (away home : String) (t : LocalTime) (feed_type : String) : String :=
  away ++ " @ " ++ home ++ ", " ++ formatTime12 t ++ " - " ++ feed_type

/-- The lines of the rendered playlist document, as `hls_m3u8`'s `Display`
for `MediaPlaylist` produces them for the builder configuration of
`create_playlist`: the `#EXTM3U` header, the mandatory zero-valued
`#EXT-X-TARGETDURATION` tag, then per segment its `#EXTINF` tag line
(zero duration plus title) followed by its URI line. -/
def renderLines (entries : List (String × String)) : List String :=
  "#EXTM3U" :: "#EXT-X-TARGETDURATION:0" ::
    entries.flatMap fun e => ["#EXTINF:0," ++ e.1, e.2]

/-- Join lines, terminating every line with a newline (each rendered tag line
is emitted by `writeln!`, and the strip loop of `create_playlist` likewise
appends `"\n"` to every line it keeps). -/
def unlines : List String → String
  | [] => ""
  | l :: ls => l ++ "\n" ++ unlines ls

/-- The rendered playlist document text, `format!("\x7b\x7d", playlist)`. -/
def renderPlaylist (entries : List (String × String)) : String :=
  unlines (renderLines entries)

/-- The post-render strip loop of `create_playlist`: enumerate the rendered
text's lines, keep every line whose index is not 1, and re-terminate each
kept line with a newline. -/
def stripLine1 (s : String) : String :=
  unlines (((rustLines s).enum.filter fun p => p.1 ≠ 1).map Prod.snd)

/-- One playlist entry of `create_playlist`'s inner loop: validate the
synthesized title and the stream URL as single-line strings (either failure
aborts serialization). -/
def mkEntry (g : GameData) (s : Stream) : Except String (String × String) :=
  match singleLineString (mkTitle g.away g.home g.date s.feed_type) with
  | Except.error e => Except.error e
  | Except.ok title =>
      match singleLineString s.url with
      | Except.error e => Except.error e
      | Except.ok uri => Except.ok (title, uri)

/-- A `for` loop whose body can fail with `?`: stop at the first failure,
otherwise collect all results in order. -/
def mapME (f : α → Except ε β) : List α → Except ε (List β)
  | [] => Except.ok []
  | a :: l =>
      match f a with
      | Except.error e => Except.error e
      | Except.ok b =>
          match mapME f l with
          | Except.error e => Except.error e
          | Except.ok bs => Except.ok (b :: bs)

/-- Function `create_playlist` up to the file write: build every entry (title + URI)
in game order then stream order, render the document, and strip the line at
index 1; the returned string is the text handed to `fs::write`. -/
def createPlaylist (games : List GameData) : Except String String :=
  match mapME (fun p => mkEntry p.1 p.2)
      (games.flatMap fun g => g.streams.map fun s => (g, s)) with
  | Except.error e => Except.error e
  | Except.ok entries => Except.ok (stripLine1 (renderPlaylist entries))

/-! ## The run (`run` / `process`) -/

/-- The games list `process` accumulates and passes to `create_playlist`,
paired with the fetched schedule: fetch the schedule, then for each game in
schedule order fetch its content and fan out its probes (a schedule or
content fetch failure aborts; probe failures do not). -/
def buildGames (w : World) : Except String (Schedule × List GameData) :=
  match w.schedule with
  | Except.error e => Except.error e
  | Except.ok sched =>
      match mapME
          (fun g =>
            match w.content g.game_pk with
            | Except.error e => Except.error e
            | Except.ok c =>
                Except.ok (GameData.mk g.home g.away g.date
                  (gameStreams w.probe (formatDate sched.date) c)))
          sched.games with
      | Except.error e => Except.error e
      | Except.ok games => Except.ok (sched, games)

/-- Function `process`: check the destination extension, build the per-game records
(every network call lives in `buildGames`), then serialize. The returned
string is the file content written to the destination — a run that returns
`Except.error` never reaches `fs::write`. -/
def processRun (path : String) (w : World) : Except String String :=
  if pathExtension path = some "m3u" then
    match buildGames w with
    | Except.error e => Except.error e
    | Except.ok r => createPlaylist r.2
  else Except.error extErrMsg

/-- Function `run`: block on `process`; on error, log and exit(1). The
embedding returns the exit status and the written file content (`none` when
nothing was written). -/
def runModel (path : String) (w : World) : Nat × Option String :=
  match processRun path w with
  | Except.ok text => (0, some text)
  | Except.error _ => (1, none)

/-! ## Helper lemmas -/

theorem mapME_ok_of_forall {f : α → Except ε β} {l : List α}
    (h : ∀ x ∈ l, ∃ y, f x = Except.ok y) : ∃ r, mapME f l = Except.ok r := by
  induction l with
  | nil => exact ⟨[], rfl⟩
  | cons a l ih =>
      obtain ⟨y, hy⟩ := h a (List.mem_cons_self a l)
      obtain ⟨r, hr⟩ := ih fun x hx => h x (List.mem_cons_of_mem a hx)
      exact ⟨y :: r, by simp [mapME, hy, hr]⟩

theorem mapME_error_of_mem {f : α → Except ε β} {l : List α} {x : α}
    (hx : x ∈ l) (hfx : ∀ y, f x ≠ Except.ok y) :
    ∃ e, mapME f l = Except.error e := by
  induction l with
  | nil => cases hx
  | cons a l ih =>
      cases hfa : f a with
      | error e => exact ⟨e, by simp [mapME, hfa]⟩
      | ok y =>
          cases hx with
          | head => exact absurd hfa (hfx y)
          | tail _ hx' =>
              obtain ⟨e, he⟩ := ih hx'
              exact ⟨e, by simp [mapME, hfa, he]⟩

theorem mapME_ok_forall₂ {f : α → Except ε β} :
    ∀ {l : List α} {r : List β}, mapME f l = Except.ok r →
      List.Forall₂ (fun a b => f a = Except.ok b) l r := by
  intro l
  induction l with
  | nil => intro r h; cases h; exact List.Forall₂.nil
  | cons a l ih =>
      intro r h
      cases hfa : f a with
      | error e => simp [mapME, hfa] at h
      | ok y =>
          cases hml : mapME f l with
          | error e => simp [mapME, hfa, hml] at h
          | ok bs =>
              simp [mapME, hfa, hml] at h
              subst h
              exact List.Forall₂.cons hfa (ih hml)

theorem length_filterMap_eq_countP (f : α → Option β) (l : List α) :
    (l.filterMap f).length = l.countP fun a => (f a).isSome := by
  induction l with
  | nil => rfl
  | cons a l ih =>
      cases h : f a with
      | none => simp [List.filterMap_cons, h, List.countP_cons, ih]
      | some b => simp [List.filterMap_cons, h, List.countP_cons, ih]

theorem forall₂_map_eq {R : α → β → Prop} {l : List α} {r : List β}
    (h : List.Forall₂ R l r) (f : α → γ) (g : β → γ)
    (hfg : ∀ a b, R a b → g b = f a) : r.map g = l.map f := by
  induction h with
  | nil => rfl
  | cons hab _ ih => simp [hfg _ _ hab, ih]

theorem forall₂_mem_right {R : α → β → Prop} {l : List α} {r : List β}
    (h : List.Forall₂ R l r) {b : β} (hb : b ∈ r) : ∃ a ∈ l, R a b := by
  induction h with
  | nil => cases hb
  | cons hab _ ih =>
      cases hb with
      | head => exact ⟨_, List.mem_cons_self _ _, hab⟩
      | tail _ hb' =>
          obtain ⟨a, ha, hR⟩ := ih hb'
          exact ⟨a, List.mem_cons_of_mem _ ha, hR⟩

theorem splitOnChar_ne_nil (sep : Char) (cs : List Char) :
    splitOnChar sep cs ≠ [] := by
  cases cs with
  | nil => simp [splitOnChar]
  | cons c rest =>
      rw [splitOnChar]
      by_cases h : c = sep
      · simp [h]
      · simp only [if_neg h]
        cases splitOnChar sep rest <;> simp

theorem splitNl_ne_nil (cs : List Char) : splitNl cs ≠ [] :=
  splitOnChar_ne_nil '\n' cs

theorem splitNl_append {l : List Char} (rest : List Char) (h : '\n' ∉ l) :
    splitNl (l ++ '\n' :: rest) = l :: splitNl rest := by
  induction l with
  | nil => simp [splitNl, splitOnChar]
  | cons c l ih =>
      have hc : ¬ c = '\n' := fun hceq => h (hceq ▸ List.mem_cons_self c l)
      have hl : '\n' ∉ l := fun hmem => h (List.mem_cons_of_mem c hmem)
      rw [splitNl] at ih ⊢
      rw [List.cons_append, splitOnChar, if_neg hc, ih hl]

theorem dropLastEmpty_cons {parts : List (List Char)} (x : List Char)
    (h : parts ≠ []) : dropLastEmpty (x :: parts) = x :: dropLastEmpty parts := by
  obtain ⟨y, ys, rfl⟩ := List.exists_cons_of_ne_nil h
  rw [dropLastEmpty, dropLastEmpty, List.getLast?_cons_cons, List.dropLast_cons₂]
  by_cases hlast : (y :: ys).getLast? = some []
  · rw [if_pos hlast, if_pos hlast]
  · rw [if_neg hlast, if_neg hlast]

theorem stripTrailingCr_eq {cs : List Char} (h : '\r' ∉ cs) :
    stripTrailingCr cs = cs := by
  rw [stripTrailingCr, if_neg]
  intro hlast
  exact h (List.mem_of_getLast?_eq_some hlast)

theorem unlines_data (x : String) (ls : List String) :
    (unlines (x :: ls)).data = x.data ++ '\n' :: (unlines ls).data := by
  rw [unlines, String.data_append, String.data_append, List.append_assoc]
  rfl

theorem rustLines_unlines (ls : List String)
    (h : ∀ x ∈ ls, '\n' ∉ x.data ∧ '\r' ∉ x.data) :
    rustLines (unlines ls) = ls := by
  induction ls with
  | nil => rfl
  | cons x ls ih =>
      obtain ⟨hx, hr⟩ := h x (List.mem_cons_self x ls)
      rw [rustLines, unlines_data, splitNl_append _ hx,
        dropLastEmpty_cons _ (splitNl_ne_nil _), List.map_cons,
        stripTrailingCr_eq hr]
      rw [rustLines] at ih
      rw [ih fun y hy => h y (List.mem_cons_of_mem x hy)]

theorem enumFrom_filter_ne_one (t : List α) :
    ∀ n, 2 ≤ n →
      (List.enumFrom n t).filter (fun p => decide ¬ p.1 = 1)
        = List.enumFrom n t := by
  induction t with
  | nil => intro n _; rfl
  | cons x t ih =>
      intro n hn
      have hne : ¬ n = 1 := by omega
      rw [List.enumFrom_cons, List.filter_cons, if_pos (by simpa using hne),
        ih (n + 1) (by omega)]

theorem enum_filter_ne_one_eq_eraseIdx (l : List α) :
    ((l.enum.filter fun p => decide ¬ p.1 = 1).map Prod.snd)
      = l.eraseIdx 1 := by
  match l with
  | [] => rfl
  | [a] => rfl
  | a :: b :: t =>
      show (((a :: b :: t).enumFrom 0).filter _).map Prod.snd = _
      rw [List.enumFrom_cons, List.enumFrom_cons,
        List.filter_cons, List.filter_cons]
      rw [if_pos (by simp), if_neg (by simp),
        enumFrom_filter_ne_one t (0 + 1 + 1) (by omega), List.map_cons,
        List.enumFrom_map_snd]
      rfl

theorem stripLine1_unlines_eraseIdx (s : String) :
    stripLine1 s = unlines ((rustLines s).eraseIdx 1) := by
  rw [stripLine1, enum_filter_ne_one_eq_eraseIdx]

theorem singleLineString_ok {s t : String}
    (h : singleLineString s = Except.ok t) :
    t = s ∧ '\n' ∉ s.data ∧ '\r' ∉ s.data := by
  rw [singleLineString] at h
  by_cases hany : s.data.any fun c => decide (c = '\n' ∨ c = '\r')
  · rw [if_pos hany] at h; cases h
  · rw [if_neg hany] at h
    cases h
    refine ⟨rfl, fun hn => ?_, fun hr => ?_⟩
    · exact hany (List.any_eq_true.mpr ⟨'\n', hn, by decide⟩)
    · exact hany (List.any_eq_true.mpr ⟨'\r', hr, by decide⟩)

theorem mkEntry_ok {g : GameData} {s : Stream} {e : String × String}
    (h : mkEntry g s = Except.ok e) :
    e = (mkTitle g.away g.home g.date s.feed_type, s.url)
    ∧ ('\n' ∉ e.1.data ∧ '\r' ∉ e.1.data) ∧ ('\n' ∉ e.2.data ∧ '\r' ∉ e.2.data) := by
  rw [mkEntry] at h
  cases ht : singleLineString (mkTitle g.away g.home g.date s.feed_type) with
  | error e' => rw [ht] at h; cases h
  | ok title =>
      rw [ht] at h
      cases hu : singleLineString s.url with
      | error e' => rw [hu] at h; cases h
      | ok uri =>
          rw [hu] at h
          cases h
          obtain ⟨rfl, hT⟩ := singleLineString_ok ht
          obtain ⟨rfl, hU⟩ := singleLineString_ok hu
          exact ⟨rfl, hT, hU⟩

theorem renderLines_clean (entries : List (String × String))
    (h : ∀ e ∈ entries,
      ('\n' ∉ e.1.data ∧ '\r' ∉ e.1.data) ∧ ('\n' ∉ e.2.data ∧ '\r' ∉ e.2.data)) :
    ∀ x ∈ renderLines entries, '\n' ∉ x.data ∧ '\r' ∉ x.data := by
  intro x hx
  rw [renderLines] at hx
  rcases hx with _ | ⟨_, hx⟩
  · exact ⟨by decide, by decide⟩
  rcases hx with _ | ⟨_, hx⟩
  · exact ⟨by decide, by decide⟩
  obtain ⟨e, he, hxe⟩ := List.mem_flatMap.mp hx
  obtain ⟨⟨hT, hTr⟩, hU, hUr⟩ := h e he
  rcases hxe with _ | ⟨_, hxe⟩
  · constructor
    · rw [String.data_append]
      intro hmem
      rcases List.mem_append.mp hmem with hpre | hin
      · exact absurd hpre (by decide)
      · exact hT hin
    · rw [String.data_append]
      intro hmem
      rcases List.mem_append.mp hmem with hpre | hin
      · exact absurd hpre (by decide)
      · exact hTr hin
  rcases hxe with _ | ⟨_, hxe⟩
  · exact ⟨hU, hUr⟩
  · cases hxe

theorem length_flatMap_pair (entries : List (String × String)) :
    (entries.flatMap fun e => ["#EXTINF:0," ++ e.1, e.2]).length
      = 2 * entries.length := by
  induction entries with
  | nil => rfl
  | cons e entries ih => simp [List.flatMap_cons, ih]; omega

/-- Whether the probe of one feed item resolves (transport success and a
body passing the `https` validation). -/
def probeOk (probe : String → Option String) (dateStr : String)
    (it : FeedItem) : Bool :=
  match getM3u8 probe (probeUrl HOST dateStr it.media_playback_id) with
  | Except.ok _ => true
  | Except.error _ => false

/-! ## Claims -/

/-- Claim C1. For every probe response body `B`, the stream resolver
(`get_m3u8`) returns a resolved URL if and only if `B` starts with the
literal prefix `"https"`; every other body yields the typed failure
`"Game hasn't started"` rather than a URL, and probe failures are non-fatal
to the run: whenever the schedule fetch and every content fetch succeed, the
game records are built successfully no matter what the probes return. -/
theorem C1_resolver_iff_https (B : String) :
    ((∃ u, getM3u8Validate B = Except.ok u) ↔ strStartsWith B "https" = true)
    ∧ (strStartsWith B "https" = false →
        getM3u8Validate B = Except.error "Game hasn't started")
    ∧ (∀ (w : World) (s : Schedule), w.schedule = Except.ok s →
        (∀ g ∈ s.games, ∃ c, w.content g.game_pk = Except.ok c) →
        ∃ gs, buildGames w = Except.ok (s, gs)) := by
  refine ⟨?_, ?_, ?_⟩
  · cases h : strStartsWith B "https" with
    | true => simp [getM3u8Validate, h]
    | false => simp [getM3u8Validate, h]
  · intro h
    simp [getM3u8Validate, h]
  · intro w s hs hc
    obtain ⟨gs, hgs⟩ := mapME_ok_of_forall (l := s.games)
      (f := fun g =>
        match w.content g.game_pk with
        | Except.error e => Except.error e
        | Except.ok c =>
            Except.ok (GameData.mk g.home g.away g.date
              (gameStreams w.probe (formatDate s.date) c)))
      (by
        intro g hg
        obtain ⟨c, hcg⟩ := hc g hg
        exact ⟨GameData.mk g.home g.away g.date
          (gameStreams w.probe (formatDate s.date) c), by simp [hcg]⟩)
    exact ⟨gs, by simp [buildGames, hs, hgs]⟩

/-- Witness for C1: the resolver accepts `"https://example.test/a.m3u8"`,
rejects `"Not Found"` with the typed failure, and a run whose probes all
fail at the transport still builds its game record. -/
theorem C1_resolver_iff_https_witness :
    getM3u8Validate "Not Found" = Except.error "Game hasn't started"
    ∧ (∃ u, getM3u8Validate "https://example.test/a.m3u8" = Except.ok u)
    ∧ (∃ gs,
        buildGames
          (World.mk
            (Except.ok (Schedule.mk (Date.mk 2019 10 5)
              [ScheduleGame.mk 1 "H" "A" (LocalTime.mk 19 0)]))
            (fun _ => Except.ok (GameContent.mk []))
            (fun _ => none))
          = Except.ok (Schedule.mk (Date.mk 2019 10 5)
              [ScheduleGame.mk 1 "H" "A" (LocalTime.mk 19 0)], gs)) :=
  ⟨(C1_resolver_iff_https "Not Found").2.1 (by decide),
   (C1_resolver_iff_https "https://example.test/a.m3u8").1.mpr (by decide),
   (C1_resolver_iff_https "").2.2 _ _ rfl
     (by intro g _; exact ⟨GameContent.mk [], rfl⟩)⟩

/-- Claim C4. For every game record and stream, the synthesized playlist title
is exactly `"<away> @ <home>, <local start 12-hour H:MM AM/PM> - <feed_type>"`;
in particular for away `"Boston Bruins"`, home `"New York Rangers"`, local
start 19:00 and feed type `"home"` it is exactly
`"Boston Bruins @ New York Rangers, 7:00 PM - home"`. -/
theorem C4_title_format (away home : String) (t : LocalTime) (ft : String)
    (g : GameData) (s : Stream) :
    mkTitle away home t ft
      = away ++ " @ " ++ home ++ ", " ++ formatTime12 t ++ " - " ++ ft
    ∧ mkEntry g s
        = (match singleLineString
              (mkTitle g.away g.home g.date s.feed_type) with
          | Except.error e => Except.error e
          | Except.ok title =>
              match singleLineString s.url with
              | Except.error e => Except.error e
              | Except.ok uri => Except.ok (title, uri))
    ∧ mkTitle "Boston Bruins" "New York Rangers" (LocalTime.mk 19 0) "home"
        = "Boston Bruins @ New York Rangers, 7:00 PM - home" :=
  ⟨rfl, rfl, by decide⟩

/-- Claim C8. The probe URL built for a feed item is exactly
`<host>/getM3U8.php?league=nhl&date=<%Y-%m-%d date>&id=<media_playback_id>&cdn=akc`,
and the fan-out consults the transport at exactly that URL for each item. -/
theorem C8_probe_url (host dateStr id : String)
    (probe : String → Option String) (it : FeedItem) :
    probeUrl host dateStr id
      = host ++ "/getM3U8.php?league=nhl&date=" ++ dateStr ++ "&id=" ++ id
          ++ "&cdn=akc"
    ∧ fanOut probe dateStr [it]
        = (match getM3u8 probe
              (probeUrl HOST dateStr it.media_playback_id) with
          | Except.ok m3u8 => [(it.media_feed_type, m3u8)]
          | Except.error _ => [])
    ∧ formatDate (Date.mk 2019 10 5) = "2019-10-05"
    ∧ probeUrl HOST (formatDate (Date.mk 2019 10 5)) "PLAYBACK_1"
        = HOST ++ "/getM3U8.php?league=nhl&date=2019-10-05&id=PLAYBACK_1&cdn=akc" := by
  refine ⟨rfl, ?_, by decide, by decide⟩
  cases h : getM3u8 probe (probeUrl HOST dateStr it.media_playback_id) with
  | ok m3u8 => simp [fanOut, h]
  | error e => simp [fanOut, h]

/-- Claim C9. The extension check is an exact case-sensitive comparison
against `"m3u"`: paths whose extension differs only in case (`.M3U`, `.M3u`)
fail the run with the extension error, for every environment. -/
theorem C9_extension_case_sensitive :
    pathExtension "playlist.M3U" = some "M3U"
    ∧ pathExtension "playlist.M3u" = some "M3u"
    ∧ (∀ w, processRun "playlist.M3U" w = Except.error extErrMsg)
    ∧ (∀ w, processRun "playlist.M3u" w = Except.error extErrMsg) := by
  refine ⟨by decide, by decide, fun w => ?_, fun w => ?_⟩ <;>
    rw [processRun, if_neg (by decide)]

/-- Claim C6. For every path whose extension is not `"m3u"` (including paths
with no extension) the run fails with the user-facing extension error,
identically in every environment — hence before any network call; for every
path with extension `"m3u"` the check passes and the run proceeds to the
pipeline. -/
theorem C6_extension_gate (p : String) (w : World) :
    (pathExtension p ≠ some "m3u" → processRun p w = Except.error extErrMsg)
    ∧ (pathExtension p = some "m3u" →
        processRun p w
          = match buildGames w with
            | Except.error e => Except.error e
            | Except.ok r => createPlaylist r.2) := by
  constructor
  · intro h
    rw [processRun, if_neg h]
  · intro h
    rw [processRun, if_pos h]

/-- Witness for C6: a `.txt` destination fails with the extension error in
an environment whose schedule fetch would succeed, and an `.m3u` destination
reaches the pipeline there. -/
theorem C6_extension_gate_witness :
    processRun "playlist.txt"
        (World.mk (Except.error "down") (fun _ => Except.error "down")
          (fun _ => none))
      = Except.error extErrMsg
    ∧ processRun "playlist.m3u"
        (World.mk (Except.error "down") (fun _ => Except.error "down")
          (fun _ => none))
      = Except.error "down" :=
  ⟨(C6_extension_gate "playlist.txt" _).1 (by decide),
   by
    rw [(C6_extension_gate "playlist.m3u"
      (World.mk (Except.error "down") (fun _ => Except.error "down")
        (fun _ => none))).2 (by decide)]
    rfl⟩

/-- Claim C2. For every sequence of feed items, the per-game fan-out returns
exactly one `(feed_type, url)` pair per successful probe — pairing that
probe's feed type with its resolved URL, surfacing no error for failed
probes — and the result is the same up to permutation (hence as a set)
regardless of the completion order of the concurrent probes. -/
theorem C2_fanout_successes (probe : String → Option String) (dateStr : String)
    (items completionOrder : List FeedItem)
    (horder : completionOrder.Perm items) :
    (fanOut probe dateStr items).length = items.countP (probeOk probe dateStr)
    ∧ (∀ ft u, (ft, u) ∈ fanOut probe dateStr items ↔
        ∃ it ∈ items, it.media_feed_type = ft ∧
          getM3u8 probe (probeUrl HOST dateStr it.media_playback_id)
            = Except.ok u)
    ∧ (fanOut probe dateStr completionOrder).Perm
        (fanOut probe dateStr items) := by
  refine ⟨?_, ?_, List.Perm.filterMap _ horder⟩
  · rw [fanOut, length_filterMap_eq_countP]
    refine List.countP_congr fun it _ => ?_
    cases h : getM3u8 probe (probeUrl HOST dateStr it.media_playback_id) with
    | ok u => simp [probeOk, h]
    | error e => simp [probeOk, h]
  · intro ft u
    rw [fanOut, List.mem_filterMap]
    constructor
    · rintro ⟨it, hit, hfit⟩
      refine ⟨it, hit, ?_⟩
      cases h : getM3u8 probe (probeUrl HOST dateStr it.media_playback_id) with
      | ok v => rw [h] at hfit; simp at hfit; exact ⟨hfit.1, by rw [hfit.2]⟩
      | error e => rw [h] at hfit; simp at hfit
    · rintro ⟨it, hit, hft, hok⟩
      exact ⟨it, hit, by rw [hok, hft]⟩

/-- Witness for C2: two feed items of which one probe succeeds; the two
completion orders give permuted (here in fact equal singleton) results. -/
theorem C2_fanout_successes_witness :
    (fanOut
        (fun u => if u = probeUrl HOST "2019-10-05" "A" then some "https://x"
          else some "Not Found")
        "2019-10-05"
        [FeedItem.mk "away" "B", FeedItem.mk "home" "A"]).Perm
      (fanOut
        (fun u => if u = probeUrl HOST "2019-10-05" "A" then some "https://x"
          else some "Not Found")
        "2019-10-05"
        [FeedItem.mk "home" "A", FeedItem.mk "away" "B"]) :=
  (C2_fanout_successes _ "2019-10-05"
    [FeedItem.mk "home" "A", FeedItem.mk "away" "B"]
    [FeedItem.mk "away" "B", FeedItem.mk "home" "A"]
    (List.Perm.swap (FeedItem.mk "home" "A") (FeedItem.mk "away" "B") [])).2.2

/-- Claim C5. For every run in which the schedule fetch or any game's content
fetch fails, `process` returns an error, so `run` exits with status 1 and
nothing is ever written to the destination file (the model's file write is
the `some` payload of `runModel`, produced only on success). -/
theorem C5_fatal_abort (path : String) (w : World)
    (h : (∃ e, w.schedule = Except.error e)
       ∨ (∃ s, w.schedule = Except.ok s ∧
            ∃ g ∈ s.games, ∃ e, w.content g.game_pk = Except.error e)) :
    (∃ msg, processRun path w = Except.error msg)
    ∧ runModel path w = (1, none) := by
  have hbg : ∃ e', buildGames w = Except.error e' := by
    rcases h with ⟨e, he⟩ | ⟨s, hs, g, hg, e, he⟩
    · exact ⟨e, by simp [buildGames, he]⟩
    · obtain ⟨e', he'⟩ := mapME_error_of_mem
        (f := fun g =>
          match w.content g.game_pk with
          | Except.error e => Except.error e
          | Except.ok c =>
              Except.ok (GameData.mk g.home g.away g.date
                (gameStreams w.probe (formatDate s.date) c)))
        hg (by intro y hy; simp [he] at hy)
      exact ⟨e', by simp [buildGames, hs, he']⟩
  obtain ⟨e', he'⟩ := hbg
  have hp : ∃ msg, processRun path w = Except.error msg := by
    by_cases hext : pathExtension path = some "m3u"
    · exact ⟨e', by rw [processRun, if_pos hext, he']⟩
    · exact ⟨extErrMsg, by rw [processRun, if_neg hext]⟩
  obtain ⟨msg, hmsg⟩ := hp
  exact ⟨⟨msg, hmsg⟩, by simp [runModel, hmsg]⟩

/-- Witness for C5: a failing schedule fetch makes the run exit with status
1 and write nothing, even for a valid `.m3u` destination. -/
theorem C5_fatal_abort_witness :
    runModel "out.m3u"
        (World.mk (Except.error "schedule down")
          (fun _ => Except.ok (GameContent.mk [])) (fun _ => none))
      = (1, none) :=
  (C5_fatal_abort "out.m3u"
    (World.mk (Except.error "schedule down")
      (fun _ => Except.ok (GameContent.mk [])) (fun _ => none))
    (Or.inl ⟨"schedule down", rfl⟩)).2

/-- Claim C7. For every successful run, the game-record list passed to the
serializer has exactly one record per game returned by the schedule query,
in the schedule's return order — each record carrying that game's away
team, home team and start time — regardless of how many streams each game
resolved. -/
theorem C7_one_record_per_game (w : World) (sched : Schedule)
    (gs : List GameData) (h : buildGames w = Except.ok (sched, gs)) :
    w.schedule = Except.ok sched
    ∧ gs.length = sched.games.length
    ∧ gs.map (fun gd => (gd.away, gd.home, gd.date))
        = sched.games.map (fun g => (g.away, g.home, g.date)) := by
  cases hsched : w.schedule with
  | error e => simp [buildGames, hsched] at h
  | ok s =>
      cases hm : mapME
          (fun g =>
            match w.content g.game_pk with
            | Except.error e => Except.error e
            | Except.ok c =>
                Except.ok (GameData.mk g.home g.away g.date
                  (gameStreams w.probe (formatDate s.date) c)))
          s.games with
      | error e => simp [buildGames, hsched, hm] at h
      | ok games =>
          have hpair : s = sched ∧ games = gs := by
            simpa [buildGames, hsched, hm] using h
          obtain ⟨rfl, rfl⟩ := hpair
          have hf₂ := mapME_ok_forall₂ hm
          refine ⟨rfl, (List.Forall₂.length_eq hf₂).symm, ?_⟩
          refine forall₂_map_eq hf₂ _ _ ?_
          intro g gd hR
          cases hc : w.content g.game_pk with
          | error e => simp [hc] at hR
          | ok c =>
              simp [hc] at hR
              rw [← hR]

/-- Witness for C7: a schedule of two games, the second resolving zero
streams, still yields two records in schedule order. -/
theorem C7_one_record_per_game_witness :
    (World.schedule
        (World.mk
          (Except.ok (Schedule.mk (Date.mk 2019 10 5)
            [ScheduleGame.mk 1 "H1" "A1" (LocalTime.mk 19 0),
             ScheduleGame.mk 2 "H2" "A2" (LocalTime.mk 20 0)]))
          (fun _ => Except.ok (GameContent.mk []))
          (fun _ => none))
      = Except.ok (Schedule.mk (Date.mk 2019 10 5)
          [ScheduleGame.mk 1 "H1" "A1" (LocalTime.mk 19 0),
           ScheduleGame.mk 2 "H2" "A2" (LocalTime.mk 20 0)]))
    ∧ [GameData.mk "H1" "A1" (LocalTime.mk 19 0) [],
        GameData.mk "H2" "A2" (LocalTime.mk 20 0) []].length = 2
    ∧ [GameData.mk "H1" "A1" (LocalTime.mk 19 0) [],
        GameData.mk "H2" "A2" (LocalTime.mk 20 0) []].map
          (fun gd => (gd.away, gd.home, gd.date))
        = [ScheduleGame.mk 1 "H1" "A1" (LocalTime.mk 19 0),
           ScheduleGame.mk 2 "H2" "A2" (LocalTime.mk 20 0)].map
            (fun g => (g.away, g.home, g.date)) := by
  have h := C7_one_record_per_game
    (World.mk
      (Except.ok (Schedule.mk (Date.mk 2019 10 5)
        [ScheduleGame.mk 1 "H1" "A1" (LocalTime.mk 19 0),
         ScheduleGame.mk 2 "H2" "A2" (LocalTime.mk 20 0)]))
      (fun _ => Except.ok (GameContent.mk []))
      (fun _ => none))
    (Schedule.mk (Date.mk 2019 10 5)
      [ScheduleGame.mk 1 "H1" "A1" (LocalTime.mk 19 0),
       ScheduleGame.mk 2 "H2" "A2" (LocalTime.mk 20 0)])
    [GameData.mk "H1" "A1" (LocalTime.mk 19 0) [],
     GameData.mk "H2" "A2" (LocalTime.mk 20 0) []]
    rfl
  exact ⟨h.1, h.2.1.trans rfl, h.2.2⟩

/-- Claim C3. For every playlist document rendered by the serializer, the text
written to disk is the rendered text with exactly the line at zero-based
index 1 removed: the rendered text is the newline-terminated join of its
lines, the written text is the join of those lines with index 1 erased, the
rendered document always has `2 + 2·(number of entries)` lines, and the
written text has exactly one line fewer. -/
theorem C3_strip_second_line (games : List GameData) (text : String)
    (h : createPlaylist games = Except.ok text) :
    ∃ entries,
      mapME (fun p => mkEntry p.1 p.2)
          (games.flatMap fun g => g.streams.map fun s => (g, s))
        = Except.ok entries
      ∧ renderPlaylist entries = unlines (rustLines (renderPlaylist entries))
      ∧ text = unlines ((rustLines (renderPlaylist entries)).eraseIdx 1)
      ∧ (rustLines (renderPlaylist entries)).length = 2 + 2 * entries.length
      ∧ (rustLines text).length + 1
          = (rustLines (renderPlaylist entries)).length := by
  cases hm : mapME (fun p => mkEntry p.1 p.2)
      (games.flatMap fun g => g.streams.map fun s => (g, s)) with
  | error e => rw [createPlaylist, hm] at h; cases h
  | ok entries =>
      rw [createPlaylist, hm] at h
      cases h
      have hclean : ∀ e ∈ entries,
          ('\n' ∉ e.1.data ∧ '\r' ∉ e.1.data)
          ∧ ('\n' ∉ e.2.data ∧ '\r' ∉ e.2.data) := by
        intro e he
        obtain ⟨p, _, hp⟩ := forall₂_mem_right (mapME_ok_forall₂ hm) he
        exact (mkEntry_ok hp).2
      have hlines := renderLines_clean entries hclean
      have hrl : rustLines (renderPlaylist entries) = renderLines entries :=
        rustLines_unlines _ hlines
      have htext : stripLine1 (renderPlaylist entries)
          = unlines ((renderLines entries).eraseIdx 1) := by
        rw [stripLine1_unlines_eraseIdx, hrl]
      refine ⟨entries, rfl, ?_, ?_, ?_, ?_⟩
      · rw [hrl]; rfl
      · exact stripLine1_unlines_eraseIdx _
      · rw [hrl, renderLines]
        simp only [List.length_cons, length_flatMap_pair]
        omega
      · rw [hrl, htext,
          rustLines_unlines _
            fun x hx => hlines x (List.eraseIdx_subset _ _ hx),
          renderLines]
        simp only [List.eraseIdx_cons_succ, List.eraseIdx_cons_zero,
          List.length_cons, length_flatMap_pair]

/-- Witness for C3: the playlist for one game with one resolved stream is
written as the three lines `#EXTM3U`, the `#EXTINF` title line and the URI —
the rendered document's second line (the target-duration tag) removed. -/
theorem C3_strip_second_line_witness :
    ∃ entries,
      mapME (fun p => mkEntry p.1 p.2)
          (([GameData.mk "H" "A" (LocalTime.mk 19 0)
              [Stream.mk "home" "https://u"]]).flatMap
            fun g => g.streams.map fun s => (g, s))
        = Except.ok entries
      ∧ renderPlaylist entries = unlines (rustLines (renderPlaylist entries))
      ∧ "#EXTM3U\n#EXTINF:0,A @ H, 7:00 PM - home\nhttps://u\n"
          = unlines ((rustLines (renderPlaylist entries)).eraseIdx 1)
      ∧ (rustLines (renderPlaylist entries)).length = 2 + 2 * entries.length
      ∧ (rustLines "#EXTM3U\n#EXTINF:0,A @ H, 7:00 PM - home\nhttps://u\n").length
          + 1 = (rustLines (renderPlaylist entries)).length :=
  C3_strip_second_line
    [GameData.mk "H" "A" (LocalTime.mk 19 0) [Stream.mk "home" "https://u"]]
    "#EXTM3U\n#EXTINF:0,A @ H, 7:00 PM - home\nhttps://u\n" rfl

/-- Claim C10. On a successful probe the resolved URL is the entire response
body verbatim — a body starting with `https` is returned unchanged, trailing
whitespace and newlines included — and a newline inside a stream URL later
makes playlist serialization fail at the single-line-string check. -/
theorem C10_verbatim_body (B : String)
    (hB : strStartsWith B "https" = true) :
    getM3u8Validate B = Except.ok B
    ∧ ∀ (games : List GameData) (g : GameData) (s : Stream),
        g ∈ games → s ∈ g.streams → '\n' ∈ s.url.data →
        ∃ e, createPlaylist games = Except.error e := by
  constructor
  · rw [getM3u8Validate, if_pos hB]
  · intro games g s hg hs hnl
    have hmem : (g, s) ∈ games.flatMap fun g => g.streams.map fun s => (g, s) :=
      List.mem_flatMap.mpr ⟨g, hg, List.mem_map.mpr ⟨s, hs, rfl⟩⟩
    have hne : ∀ y, (fun (p : GameData × Stream) => mkEntry p.1 p.2) (g, s) ≠ Except.ok y := by
      intro y hy
      obtain ⟨rfl, _, hU, _⟩ := mkEntry_ok hy
      exact hU hnl
    obtain ⟨e, he⟩ :=
      mapME_error_of_mem (f := fun (p : GameData × Stream) => mkEntry p.1 p.2)
        (l := games.flatMap fun g => g.streams.map fun s => (g, s))
        (x := (g, s)) hmem hne
    refine ⟨e, ?_⟩
    rw [createPlaylist, he]

/-- Witness for C10: the body `"https://x/a.m3u8\n"` is resolved verbatim,
newline included, and a playlist containing it fails to serialize. -/
theorem C10_verbatim_body_witness :
    getM3u8Validate "https://x/a.m3u8\n" = Except.ok "https://x/a.m3u8\n"
    ∧ ∃ e,
        createPlaylist
          [GameData.mk "H" "A" (LocalTime.mk 19 0)
            [Stream.mk "home" "https://x/a.m3u8\n"]]
          = Except.error e :=
  ⟨(C10_verbatim_body "https://x/a.m3u8\n" (by decide)).1,
   (C10_verbatim_body "https://x/a.m3u8\n" (by decide)).2
     [GameData.mk "H" "A" (LocalTime.mk 19 0)
       [Stream.mk "home" "https://x/a.m3u8\n"]]
     (GameData.mk "H" "A" (LocalTime.mk 19 0)
       [Stream.mk "home" "https://x/a.m3u8\n"])
     (Stream.mk "home" "https://x/a.m3u8\n")
     (List.mem_singleton.mpr rfl) (List.mem_singleton.mpr rfl) (by decide)⟩

end Lazystream
